import Mathlib

/-!
A shallow embedding of the puzzle core of `src/src/App.tsx` (sudophysics):
the seeded PRNG, the Fisher–Yates shuffle, Latin-square generation, puzzle
masking, the level-parameter policy, the grid validator, and the
slot-binding drop resolver.

JS numbers are modelled exactly: integer arithmetic as `Int`/`Nat`
(JS `%` on integers is truncated remainder, `Int.tmod`), and the PRNG's
float division `value / 2147483647` as the exact rational `randQ`.  For
the index computation `Math.floor(rand() * (i + 1))` and for the distance
comparisons the IEEE double rounding error is orders of magnitude below
the separation of the compared exact quantities, so the rational model
agrees with the float semantics at every reachable input; distances are
compared through their squares, which `Math.hypot`'s monotone square root
preserves.
-/

namespace Sudo

/-- `createSeededRandom` (App.tsx:66-70), state initialisation:
`let value = seed % 2147483647; if (value <= 0) value += 2147483646`. -/
def rngInit (seed : Int) : Nat :=
  let v := seed.tmod 2147483647
  (if v ≤ 0 then v + 2147483646 else v).toNat

/-- One state advance of the generator (App.tsx:69):
`value = (value * 48271) % 2147483647`. -/
def rngStep (s : Nat) : Nat := s * 48271 % 2147483647

/-- The float returned by one `rand()` call whose post-advance state is `s`:
`value / 2147483647`, as an exact rational. -/
def randQ (s : Nat) : ℚ := (s : ℚ) / 2147483647

/-- One Fisher–Yates iteration of `shuffle` (App.tsx:74-77) at index `i`:
`j = Math.floor(rand() * (i + 1)); [copy[i], copy[j]] = [copy[j], copy[i]]`.
`Math.floor((s' / 2147483647) * (i + 1))` is written as the equal natural
division `s' * (i + 1) / 2147483647` so that the whole generator stays in
`Nat`; the equality with the floored rational form is `fisherStep_floor`. -/
def fisherStep (l : List Nat) (i : Nat) (s : Nat) : List Nat × Nat :=
  let s' := rngStep s
  let j := s' * (i + 1) / 2147483647
  ((l.set i (l.getD j 0)).set j (l.getD i 0), s')

/-- The loop `for (i = copy.length - 1; i > 0; i -= 1)` of `shuffle`,
counting down to (and excluding) index 0. -/
def shuffleGo (l : List Nat) (s : Nat) : Nat → List Nat × Nat
  | 0 => (l, s)
  | i + 1 =>
    let p := fisherStep l (i + 1) s
    shuffleGo p.1 p.2 i

/-- `shuffle` (App.tsx:72-79): a seeded Fisher–Yates pass over a copy of
the input list, threading the generator state. -/
def shuffle (l : List Nat) (s : Nat) : List Nat × Nat :=
  shuffleGo l s (l.length - 1)

/-- `LEVEL_COUNT` (App.tsx:38). -/
def LEVEL_COUNT : Nat := 8

/-- `MIN_GRID_SIZE` (App.tsx:39). -/
def MIN_GRID_SIZE : Int := 3

/-- `MAX_GRID_SIZE` (App.tsx:40). -/
def MAX_GRID_SIZE : Int := 14

/-- `getGridSizeForLevel` (App.tsx:81-82):
`Math.min(MAX_GRID_SIZE, MIN_GRID_SIZE + levelIndex - 1)`.  Note: only the
upper bound is applied; there is no lower clamp in the code. -/
def getGridSizeForLevel (levelIndex : Int) : Int :=
  min MAX_GRID_SIZE (MIN_GRID_SIZE + levelIndex - 1)

/-- `baseRow` of `generateSolvedGrid` (App.tsx:86): `[1, …, size]`. -/
def baseRow (size : Nat) : List Nat := (List.range size).map (· + 1)

/-- The first shuffle of `generateSolvedGrid` (App.tsx:87): `rowOrder`,
a shuffle of the index list `[0, …, size-1]` (`baseRow.map((_, i) => i)`),
seeded with `seed + levelIndex * 131`, paired with the generator state
after it. -/
def rowOrderOf (size : Nat) (seed levelIndex : Int) : List Nat × Nat :=
  shuffle (List.range size) (rngInit (seed + levelIndex * 131))

/-- The second shuffle (App.tsx:88): `colOrder`, continuing the stream. -/
def colOrderOf (size : Nat) (seed levelIndex : Int) : List Nat × Nat :=
  shuffle (List.range size) (rowOrderOf size seed levelIndex).2

/-- The third shuffle (App.tsx:89): `symbols`, a shuffle of `baseRow`,
continuing the stream. -/
def symbolsOf (size : Nat) (seed levelIndex : Int) : List Nat × Nat :=
  shuffle (baseRow size) (colOrderOf size seed levelIndex).2

/-- `generateSolvedGrid` (App.tsx:84-96).  The symbol map sends
`k ∈ [1, size]` to `symbols[k-1]`; the `?? fallback` of the source is the
`getD` default, never reached for in-range keys.  The cell at output
position `(i, j)` is `map.get(((rowOrder[i] + colOrder[j]) % size) + 1)`. -/
def generateSolvedGrid (size : Nat) (seed levelIndex : Int) : List (List Nat) :=
  (rowOrderOf size seed levelIndex).1.map (fun r =>
    (colOrderOf size seed levelIndex).1.map (fun c =>
      let t := (r + c) % size + 1
      (symbolsOf size seed levelIndex).1.getD (t - 1) t))

/-- `getMissingRatio` (App.tsx:98-102), as exact rationals. -/
def getMissingRatio (levelIndex : Int) : ℚ × ℚ :=
  if levelIndex ≤ 3 then (22/100, 3/10)
  else if levelIndex ≤ 8 then (35/100, 1/2)
  else (55/100, 7/10)

/-- The same ratio table with both bounds scaled by 100, as naturals:
`(22, 30)`, `(35, 50)`, `(55, 70)`. -/
def getMissingRatioNum (levelIndex : Int) : Nat × Nat :=
  if levelIndex ≤ 3 then (22, 30)
  else if levelIndex ≤ 8 then (35, 50)
  else (55, 70)

/-- In-place cell update `grid[row][col] = v` on a list-of-lists grid. -/
def setCell (g : List (List Nat)) (row col v : Nat) : List (List Nat) :=
  g.set row ((g.getD row []).set col v)

/-- The `missingCount` computed by `generateLevelData` (App.tsx:110-111):
`Math.floor(size * size * (minRatio + rng() * (maxRatio - minRatio)))`,
where `rng()` is the first draw of the generator seeded with
`seed + levelIndex * 97`.  The floor of the exact rational value is written
as the equal natural division (numerator and denominator both scaled by
`100 * 2147483647`) so that the computation stays in `Nat`; the equality
with the floored rational form is `missingCountOf_floor`. -/
def missingCountOf (levelIndex seed : Int) : Nat :=
  let size := (getGridSizeForLevel levelIndex).toNat
  let ab := getMissingRatioNum levelIndex
  let s1 := rngStep (rngInit (seed + levelIndex * 97))
  size * size * (ab.1 * 2147483647 + s1 * (ab.2 - ab.1)) / (100 * 2147483647)

/-- The result record of `generateLevelData`. -/
structure LevelData where
  size : Nat
  solvedGrid : List (List Nat)
  puzzleGrid : List (List Nat)
  deriving DecidableEq, Repr

/-- `generateLevelData` (App.tsx:104-122): derive the size, generate the
solved grid, draw `missingCount`, Fisher–Yates-shuffle the list of all
`size*size` cell positions with the same generator, and blank the first
`missingCount` positions. -/
def generateLevelData (levelIndex seed : Int) : LevelData :=
  let s0 := rngInit (seed + levelIndex * 97)
  let size := (getGridSizeForLevel levelIndex).toNat
  let solvedGrid := generateSolvedGrid size seed levelIndex
  let missing := missingCountOf levelIndex seed
  let s1 := rngStep s0
  let positions := List.range (size * size)
  let shuffled := shuffle positions s1
  let blanked := shuffled.1.take missing
  let grid := blanked.foldl (fun g pos => setCell g (pos / size) (pos % size) 0)
    solvedGrid
  ⟨size, solvedGrid, grid⟩

/-- The column of a list-of-lists grid at index `c`. -/
def columnOf (g : List (List Nat)) (c : Nat) : List Nat :=
  g.map (fun row => row.getD c 0)

/-- The symbol-lookup function: grid cells are `symbols[k]` looked up at the
cyclic index `k`.  The second argument of `getD` is the unreachable
`?? fallback`. -/
def symLookup (size : Nat) (seed lvl : Int) (k : Nat) : Nat :=
  (symbolsOf size seed lvl).1.getD k (k + 1)

/-- `SlotInfo` (App.tsx:20-25): an empty cell of the puzzle grid with its
linear index and the expected value from the solved grid. -/
structure SlotInfo where
  row : Nat
  col : Nat
  index : Nat
  value : Nat
  deriving DecidableEq, Repr

/-- The `slotInfo` computation (App.tsx:175-188): scan the puzzle grid in
row-major order and emit a slot for every cell equal to `0`, carrying the
solved grid's value at that cell. -/
def slotInfoOf (puzzleGrid solvedGrid : List (List Nat)) : List SlotInfo :=
  let rows := puzzleGrid.length
  let cols := (puzzleGrid.getD 0 []).length
  (List.range rows).flatMap fun r =>
    (List.range cols).filterMap fun c =>
      if (puzzleGrid.getD r []).getD c 0 = 0 then
        some ⟨r, c, r * cols + c, (solvedGrid.getD r []).getD c 0⟩
      else none

/-- The values carried by the created balls (App.tsx:429-453): `balls` is
`slotCenters.map(...)`, one ball per slot, and `ballValuesRef` assigns ball
`index` the value `slotCenters[index].value`; so in creation order the
token values are exactly the slots' expected values. -/
def tokenValues (slots : List SlotInfo) : List Nat := slots.map (·.value)

/-- One line check of `evaluateGrid` (App.tsx:487-497 rows, 500-510
columns): walk the cells keeping a `seen` set (modelled as the list of
values added, distinct by construction); fail on `!value`, a value outside
`[1, size]`, or a repeat; after a full walk require
`seen.size === expectedCount`. -/
def checkLineGo (size : Nat) : List Nat → List Nat → Bool
  | [], seen => seen.length == size
  | v :: rest, seen =>
    if v = 0 ∨ v < 1 ∨ size < v ∨ v ∈ seen then false
    else checkLineGo size rest (v :: seen)

/-- A full row/column check, starting from an empty `seen` set. -/
def checkLine (size : Nat) (cells : List Nat) : Bool := checkLineGo size cells []

/-- Row `r` of the filled grid as read by the row loop: `filledGrid[r]`. -/
def rowCells (g : List (List Nat)) (r : Nat) : List Nat := g.getD r []

/-- Column `c` as read by the column loop: `filledGrid[r][c]` for
`r = 0, …, size-1`. -/
def colCells (size : Nat) (g : List (List Nat)) (c : Nat) : List Nat :=
  (List.range size).map fun r => (g.getD r []).getD c 0

/-- The validation core of `evaluateGrid` (App.tsx:483-511): `isValid`
stays `true` iff every row check and every column check passes. -/
def evaluateFilled (size : Nat) (g : List (List Nat)) : Bool :=
  ((List.range size).all fun r => checkLine size (rowCells g r)) &&
  ((List.range size).all fun c => checkLine size (colCells size g c))

/-- The Latin-line property in the specification's words: no value outside
`[1, size]`, no repeated value, and exactly `size` distinct values. -/
def lineLatin (size : Nat) (cells : List Nat) : Prop :=
  (∀ v ∈ cells, 1 ≤ v ∧ v ≤ size) ∧ cells.Nodup ∧ cells.dedup.length = size

/-- `SlotCenter` (App.tsx:27): a slot together with its snap coordinates. -/
structure SlotCenter where
  row : Nat
  col : Nat
  index : Nat
  value : Nat
  x : ℚ
  y : ℚ
  deriving DecidableEq, Repr

/-- JS `Map.get` on an insertion-ordered association list. -/
def mapGet : List (Nat × Nat) → Nat → Option Nat
  | [], _ => none
  | (k', v) :: rest, k => if k' = k then some v else mapGet rest k

/-- JS `Map.set`: replace in place when the key is present (keys are unique
in a JS `Map`, so replacing the first occurrence is replacing the entry),
else append at the end, preserving insertion order. -/
def mapSet : List (Nat × Nat) → Nat → Nat → List (Nat × Nat)
  | [], k, v => [(k, v)]
  | (k', v') :: rest, k, v =>
    if k' = k then (k, v) :: rest else (k', v') :: mapSet rest k v

/-- JS `Map.delete`: remove the entry for the key (keys are unique in a JS
`Map`), keeping the order of the others. -/
def mapDelete : List (Nat × Nat) → Nat → List (Nat × Nat)
  | [], _ => []
  | (k', v) :: rest, k =>
    if k' = k then mapDelete rest k else (k', v) :: mapDelete rest k

/-- The live binding state: `slotToBodyRef`, `bodyToSlotRef`,
`solvedSlotsRef` (App.tsx:132-134). -/
structure BindMaps where
  slotToBody : List (Nat × Nat)
  bodyToSlot : List (Nat × Nat)
  solvedSlots : List Nat
  deriving DecidableEq, Repr

/-- `clearSlot` (App.tsx:466-472): look up the slot's body; on a falsy
result (`undefined` or id `0`) return unchanged, else delete both
directional entries and the solved mark. -/
def clearSlot (st : BindMaps) (slotIndex : Nat) : BindMaps :=
  match mapGet st.slotToBody slotIndex with
  | none => st
  | some bodyId =>
    if bodyId = 0 then st
    else
      ⟨mapDelete st.slotToBody slotIndex, mapDelete st.bodyToSlot bodyId,
        st.solvedSlots.filter fun i => i ≠ slotIndex⟩

/-- Squared Euclidean distance.  The source compares `Math.hypot` values;
square root is strictly monotone on nonnegative reals, so every comparison
in `dropBody` is equivalent to the same comparison of squares. -/
def distSq (px py x y : ℚ) : ℚ := (px - x) * (px - x) + (py - y) * (py - y)

/-- The `reduce` of `dropBody` (App.tsx:523-533): the first slot strictly
closer than every earlier one wins; returns the nearest slot and its
(squared) distance, or `none` for an empty slot list. -/
def findNearest (slots : List SlotCenter) (px py : ℚ) : Option (SlotCenter × ℚ) :=
  slots.foldl (fun acc slot =>
    let d := distSq px py slot.x slot.y
    match acc with
    | none => some (slot, d)
    | some best => if d < best.2 then some (slot, d) else acc) none

/-- The binding-map effect of `dropBody` (App.tsx:522-570), with the snap
threshold passed as its square.  Physics side effects (returning a rejected
ball or an evicted ball to the pool, pinning the dropped ball) move bodies
but never touch the binding maps and are not modelled; the trailing
`evaluateGrid()` call also leaves the maps unchanged. -/
def dropBody (st : BindMaps) (slots : List SlotCenter) (bodyId : Nat)
    (px py threshSq : ℚ) : BindMaps :=
  match findNearest slots px py with
  | none => st
  | some nearest =>
    if threshSq < nearest.2 then st
    else
      let st1 := if (mapGet st.slotToBody nearest.1.index).isSome
        then clearSlot st nearest.1.index else st
      ⟨mapSet st1.slotToBody nearest.1.index bodyId,
        mapSet st1.bodyToSlot bodyId nearest.1.index,
        if nearest.1.index ∈ st1.solvedSlots then st1.solvedSlots
        else st1.solvedSlots ++ [nearest.1.index]⟩

/-- `evaluateGrid` (App.tsx:474-520) as a pure function: `none` when the
guard `slotToBodyRef.current.size !== slotCenters.length` fires — the code
silently returns, signalling nothing — otherwise `some` of the validation
verdict on the grid filled from the bound tokens (`value ?? 0` and the
falsy check on `bodyId` are modelled explicitly). -/
def evaluateGridM (gridSize : Nat) (puzzleGrid : List (List Nat))
    (slotCenters : List SlotCenter) (slotToBody ballValues : List (Nat × Nat)) :
    Option Bool :=
  if slotToBody.length ≠ slotCenters.length then none
  else
    let filled := slotCenters.foldl (fun g slot =>
      let value := match mapGet slotToBody slot.index with
        | none => 0
        | some bodyId => if bodyId = 0 then 0 else (mapGet ballValues bodyId).getD 0
      setCell g slot.row slot.col value) puzzleGrid
    some (evaluateFilled gridSize filled)

theorem rngStep_lt (s : Nat) : rngStep s < 2147483647 :=
  Nat.mod_lt _ (by norm_num)

theorem neg_tmod_eq (a b : Int) : (-a).tmod b = -(a.tmod b) := by
  rw [Int.tmod_def, Int.tmod_def, Int.neg_tdiv]
  ring

theorem tmod_bounds (seed : Int) :
    -2147483647 < seed.tmod 2147483647 ∧ seed.tmod 2147483647 < 2147483647 := by
  have h1 : seed.tmod 2147483647 < 2147483647 :=
    Int.tmod_lt_of_pos seed (by norm_num)
  have h2 := Int.tmod_lt_of_pos (-seed) (show (0:Int) < 2147483647 by norm_num)
  rw [neg_tmod_eq] at h2
  omega

theorem rngInit_le (seed : Int) : rngInit seed ≤ 2147483646 := by
  have h := tmod_bounds seed
  show (if seed.tmod 2147483647 ≤ 0 then seed.tmod 2147483647 + 2147483646
    else seed.tmod 2147483647).toNat ≤ 2147483646
  split <;> omega

/-- `Math.floor(rand() * k)` with post-advance state `s` is exact natural
division `s * k / 2147483647`. -/
theorem floor_randQ_mul (s k : Nat) :
    Nat.floor (randQ s * (k : ℚ)) = s * k / 2147483647 := by
  have h : randQ s * (k : ℚ) = ((s * k : Nat) : ℚ) / ((2147483647 : Nat) : ℚ) := by
    unfold randQ
    push_cast
    ring
  rw [h, Nat.floor_div_nat, Nat.floor_natCast]

theorem count_set_add (l : List Nat) (i : Nat) (b a : Nat) (h : i < l.length) :
    (l.set i b).count a + (if l.getD i 0 = a then 1 else 0)
      = l.count a + (if b = a then 1 else 0) := by
  induction l generalizing i with
  | nil => simp at h
  | cons x xs ih =>
    cases i with
    | zero =>
      simp only [List.set_cons_zero, List.count_cons, List.getD_cons_zero,
        beq_iff_eq]
      split_ifs <;> omega
    | succ n =>
      simp only [List.set_cons_succ, List.count_cons, List.getD_cons_succ,
        beq_iff_eq]
      have hih := ih n (by simpa using h)
      split_ifs at hih ⊢ <;> omega

theorem set_getD_self (l : List Nat) (i : Nat) : l.set i (l.getD i 0) = l := by
  apply List.ext_getElem
  · simp
  · intro n h1 h2
    rw [List.getElem_set]
    split
    · next heq =>
      subst heq
      rw [List.getD_eq_getElem l 0 h2]
    · rfl

/-- The destructuring swap `[copy[i], copy[j]] = [copy[j], copy[i]]` keeps
the list a permutation of itself. -/
theorem set_set_perm (l : List Nat) (i j : Nat) (hi : i < l.length)
    (hj : j < l.length) :
    ((l.set i (l.getD j 0)).set j (l.getD i 0)).Perm l := by
  rcases eq_or_ne i j with rfl | hne
  · rw [set_getD_self, set_getD_self]
  · rw [List.perm_iff_count]
    intro a
    have h1 := count_set_add l i (l.getD j 0) a hi
    have hj' : j < (l.set i (l.getD j 0)).length := by simpa using hj
    have h2 := count_set_add (l.set i (l.getD j 0)) j (l.getD i 0) a hj'
    have h3 : (l.set i (l.getD j 0)).getD j 0 = l.getD j 0 := by
      simp only [List.getD_eq_getElem?_getD, List.getElem?_set_ne hne]
    rw [h3] at h2
    split_ifs at h1 h2 <;> omega

theorem getMissingRatio_num (lvl : Int) :
    getMissingRatio lvl
      = (((getMissingRatioNum lvl).1 : ℚ) / 100,
         ((getMissingRatioNum lvl).2 : ℚ) / 100) := by
  rw [getMissingRatio, getMissingRatioNum]
  split_ifs <;> norm_num

theorem getMissingRatioNum_le (lvl : Int) :
    (getMissingRatioNum lvl).1 ≤ (getMissingRatioNum lvl).2 := by
  rw [getMissingRatioNum]
  split_ifs <;> norm_num

/-- `missingCountOf` is exactly the source's
`Math.floor(size * size * (minRatio + rng() * (maxRatio - minRatio)))` on
the exact rational `rng()` value. -/
theorem missingCountOf_floor (lvl seed : Int) :
    missingCountOf lvl seed
      = Nat.floor ((((getGridSizeForLevel lvl).toNat
            * (getGridSizeForLevel lvl).toNat : ℕ) : ℚ)
          * ((getMissingRatio lvl).1
            + randQ (rngStep (rngInit (seed + lvl * 97)))
              * ((getMissingRatio lvl).2 - (getMissingRatio lvl).1))) := by
  have hab := getMissingRatioNum_le lvl
  have key : (((getGridSizeForLevel lvl).toNat
        * (getGridSizeForLevel lvl).toNat : ℕ) : ℚ)
      * ((getMissingRatio lvl).1
        + randQ (rngStep (rngInit (seed + lvl * 97)))
          * ((getMissingRatio lvl).2 - (getMissingRatio lvl).1))
      = (((getGridSizeForLevel lvl).toNat * (getGridSizeForLevel lvl).toNat
            * ((getMissingRatioNum lvl).1 * 2147483647
              + rngStep (rngInit (seed + lvl * 97))
                * ((getMissingRatioNum lvl).2 - (getMissingRatioNum lvl).1))
            : ℕ) : ℚ)
        / (((100 * 2147483647 : ℕ)) : ℚ) := by
    rw [getMissingRatio_num, randQ]
    push_cast [Nat.cast_sub hab]
    field_simp
    ring
  rw [key, Nat.floor_div_nat, Nat.floor_natCast]
  rfl

/-- `fisherStep`'s swap index is exactly the source's
`Math.floor(rand() * (i + 1))` on the exact rational `rand()` value. -/
theorem fisherStep_floor (l : List Nat) (i s : Nat) :
    fisherStep l i s
      = ((l.set i (l.getD (Nat.floor (randQ (rngStep s) * ((i : ℚ) + 1))) 0)).set
          (Nat.floor (randQ (rngStep s) * ((i : ℚ) + 1))) (l.getD i 0),
         rngStep s) := by
  have hcast : ((i : ℚ) + 1) = (((i + 1 : Nat)) : ℚ) := by push_cast; ring
  rw [hcast, floor_randQ_mul]
  rfl

/-- The random swap target satisfies `j ≤ i`: `rand()` is strictly below 1. -/
theorem fisher_j_le (i s : Nat) :
    rngStep s * (i + 1) / 2147483647 ≤ i := by
  have hs : rngStep s ≤ 2147483646 := Nat.le_of_lt_succ (rngStep_lt s)
  have h1 : rngStep s * (i + 1) ≤ 2147483646 * (i + 1) :=
    Nat.mul_le_mul_right _ hs
  have h2 : 2147483646 * (i + 1) / 2147483647 ≤ i := by
    rw [Nat.div_le_iff_le_mul_add_pred (by norm_num)]
    ring_nf
    omega
  calc rngStep s * (i + 1) / 2147483647
      ≤ 2147483646 * (i + 1) / 2147483647 := Nat.div_le_div_right h1
    _ ≤ i := h2

theorem fisherStep_perm (l : List Nat) (i s : Nat) (hi : i < l.length) :
    (fisherStep l i s).1.Perm l := by
  unfold fisherStep
  exact set_set_perm l i _ hi (lt_of_le_of_lt (fisher_j_le i s) hi)

theorem shuffleGo_perm (n : Nat) :
    ∀ l s, n < l.length → ((shuffleGo l s n).1).Perm l := by
  induction n with
  | zero => intro l s _; exact List.Perm.refl l
  | succ m ih =>
    intro l s hn
    have hstep := fisherStep_perm l (m + 1) s hn
    have hlen : (fisherStep l (m + 1) s).1.length = l.length := hstep.length_eq
    have hrec := ih (fisherStep l (m + 1) s).1 (fisherStep l (m + 1) s).2
      (by omega)
    exact hrec.trans hstep

/-- The Fisher–Yates pass returns a permutation of its input. -/
theorem shuffle_perm (l : List Nat) (s : Nat) : (shuffle l s).1.Perm l := by
  unfold shuffle
  rcases Nat.eq_zero_or_pos l.length with h | h
  · rw [h]
    exact List.Perm.refl l
  · exact shuffleGo_perm (l.length - 1) l s (by omega)

theorem shuffle_length (l : List Nat) (s : Nat) :
    (shuffle l s).1.length = l.length :=
  (shuffle_perm l s).length_eq

/-- `x ↦ (x + k) % n` permutes `[0, …, n-1]`. -/
theorem range_map_add_mod_perm (n k : Nat) (hn : 0 < n) :
    ((List.range n).map (fun x => (x + k) % n)).Perm (List.range n) := by
  have hnodup : ((List.range n).map (fun x => (x + k) % n)).Nodup := by
    refine List.Nodup.map_on ?_ (List.nodup_range n)
    intro x hx y hy hxy
    rw [List.mem_range] at hx hy
    have hmx : x % n = x := Nat.mod_eq_of_lt hx
    have hmy : y % n = y := Nat.mod_eq_of_lt hy
    have : x % n = y % n := Nat.ModEq.add_right_cancel' k hxy
    omega
  have hsub : ((List.range n).map (fun x => (x + k) % n)) ⊆ List.range n := by
    intro a ha
    rw [List.mem_map] at ha
    obtain ⟨x, _, rfl⟩ := ha
    rw [List.mem_range]
    exact Nat.mod_lt _ hn
  have hlen : ((List.range n).map (fun x => (x + k) % n)).length
      = (List.range n).length := by simp
  exact (List.subperm_of_subset hnodup hsub).perm_of_length_le (le_of_eq hlen.symm)

theorem map_range_getD (l : List Nat) (d : Nat → Nat) :
    (List.range l.length).map (fun k => l.getD k (d k)) = l := by
  apply List.ext_getElem
  · simp
  · intro n h1 h2
    rw [List.getElem_map, List.getElem_range, List.getD_eq_getElem _ _ h2]

theorem symbolsOf_length (size : Nat) (seed lvl : Int) :
    (symbolsOf size seed lvl).1.length = size := by
  rw [symbolsOf, shuffle_length, baseRow, List.length_map, List.length_range]

theorem baseRow_eq_range' (size : Nat) : baseRow size = List.range' 1 size := by
  rw [baseRow, List.range'_eq_map_range]
  exact List.map_congr_left fun x _ => Nat.add_comm x 1

theorem symLookup_range_eq (size : Nat) (seed lvl : Int) :
    (List.range size).map (symLookup size seed lvl) = (symbolsOf size seed lvl).1 := by
  have h := map_range_getD (symbolsOf size seed lvl).1 (· + 1)
  rw [symbolsOf_length size seed lvl] at h
  exact h

theorem symLookup_perm (size : Nat) (seed lvl : Int) :
    ((List.range size).map (symLookup size seed lvl)).Perm (List.range' 1 size) := by
  rw [symLookup_range_eq, ← baseRow_eq_range']
  exact shuffle_perm _ _

/-- Each entry of a generated row is `symLookup` at the cyclic index. -/
theorem solvedGrid_cell (size : Nat) (seed lvl : Int) (r c : Nat) :
    (fun c =>
      let t := (r + c) % size + 1
      (symbolsOf size seed lvl).1.getD (t - 1) t) c
      = symLookup size seed lvl ((r + c) % size) := rfl

/-- Latin-square invariant, rows: every row of `generateSolvedGrid` is a
permutation of `[1, …, size]`. -/
theorem solvedGrid_rows_perm (size : Nat) (seed lvl : Int) (hsz : 0 < size) :
    ∀ row ∈ generateSolvedGrid size seed lvl, row.Perm (List.range' 1 size) := by
  intro row hrow
  rw [generateSolvedGrid, List.mem_map] at hrow
  obtain ⟨r, _, rfl⟩ := hrow
  set f := fun c =>
    let t := (r + c) % size + 1
    (symbolsOf size seed lvl).1.getD (t - 1) t with hf
  have h1 : ((colOrderOf size seed lvl).1.map f).Perm ((List.range size).map f) :=
    (shuffle_perm _ _).map f
  have h2 : (List.range size).map f
      = ((List.range size).map (fun c => (c + r) % size)).map
          (symLookup size seed lvl) := by
    rw [List.map_map]
    exact List.map_congr_left fun c _ => by
      show f c = symLookup size seed lvl ((c + r) % size)
      rw [Nat.add_comm c r]
      rfl
  have h3 : (((List.range size).map (fun c => (c + r) % size)).map
      (symLookup size seed lvl)).Perm
      ((List.range size).map (symLookup size seed lvl)) :=
    (range_map_add_mod_perm size r hsz).map _
  exact h1.trans ((h2 ▸ h3).trans (symLookup_perm size seed lvl))

theorem solvedGrid_length (size : Nat) (seed lvl : Int) :
    (generateSolvedGrid size seed lvl).length = size := by
  rw [generateSolvedGrid, List.length_map, rowOrderOf, shuffle_length,
    List.length_range]

theorem solvedGrid_row_length (size : Nat) (seed lvl : Int) :
    ∀ row ∈ generateSolvedGrid size seed lvl, row.length = size := by
  intro row hrow
  rw [generateSolvedGrid, List.mem_map] at hrow
  obtain ⟨r, _, rfl⟩ := hrow
  rw [List.length_map, colOrderOf, shuffle_length, List.length_range]

/-- Latin-square invariant, columns: every column of `generateSolvedGrid`
is a permutation of `[1, …, size]`. -/
theorem solvedGrid_cols_perm (size : Nat) (seed lvl : Int) (hsz : 0 < size) :
    ∀ c < size, (columnOf (generateSolvedGrid size seed lvl) c).Perm
      (List.range' 1 size) := by
  intro c hc
  have hclen : c < (colOrderOf size seed lvl).1.length := by
    rw [colOrderOf, shuffle_length, List.length_range]; exact hc
  set c0 := (colOrderOf size seed lvl).1[c] with hc0
  have h0 : columnOf (generateSolvedGrid size seed lvl) c
      = (rowOrderOf size seed lvl).1.map
          (fun r => symLookup size seed lvl ((r + c0) % size)) := by
    rw [columnOf, generateSolvedGrid, List.map_map]
    refine List.map_congr_left fun r _ => ?_
    show ((colOrderOf size seed lvl).1.map _).getD c 0 = _
    rw [List.getD_eq_getElem _ 0 (by simpa using hclen), List.getElem_map]
    rfl
  rw [h0]
  have h1 : ((rowOrderOf size seed lvl).1.map
      (fun r => symLookup size seed lvl ((r + c0) % size))).Perm
      ((List.range size).map (fun r => symLookup size seed lvl ((r + c0) % size))) :=
    (shuffle_perm _ _).map _
  have h2 : (List.range size).map (fun r => symLookup size seed lvl ((r + c0) % size))
      = ((List.range size).map (fun r => (r + c0) % size)).map
          (symLookup size seed lvl) := by
    rw [List.map_map]
    rfl
  have h3 := (range_map_add_mod_perm size c0 hsz).map (symLookup size seed lvl)
  exact h1.trans ((h2 ▸ h3).trans (symLookup_perm size seed lvl))

theorem checkLineGo_iff (size : Nat) :
    ∀ (cells seen : List Nat),
      checkLineGo size cells seen = true ↔
        ((∀ v ∈ cells, 1 ≤ v ∧ v ≤ size) ∧ cells.Nodup ∧
          (∀ v ∈ cells, v ∉ seen) ∧ cells.length + seen.length = size) := by
  intro cells
  induction cells with
  | nil =>
    intro seen
    simp [checkLineGo]
  | cons v rest ih =>
    intro seen
    rw [checkLineGo]
    split_ifs with h
    · simp only [Bool.false_eq_true, false_iff]
      rintro ⟨h1, _, h3, _⟩
      have hv := h1 v (List.mem_cons_self v rest)
      rcases h with h | h | h | h
      · omega
      · omega
      · omega
      · exact h3 v (List.mem_cons_self v rest) h
    · push_neg at h
      obtain ⟨hv0, hv1, hv2, hvs⟩ := h
      rw [ih (v :: seen)]
      constructor
      · rintro ⟨h1, h2, h3, h4⟩
        refine ⟨?_, ?_, ?_, ?_⟩
        · intro u hu
          rcases List.mem_cons.mp hu with rfl | hu
          · exact ⟨by omega, by omega⟩
          · exact h1 u hu
        · refine List.nodup_cons.mpr ⟨fun hv => ?_, h2⟩
          exact h3 v hv (List.mem_cons_self v seen)
        · intro u hu hus
          rcases List.mem_cons.mp hu with rfl | hu'
          · exact hvs hus
          · exact h3 u hu' (List.mem_cons_of_mem v hus)
        · simp only [List.length_cons] at h4 ⊢
          omega
      · rintro ⟨h1, h2, h3, h4⟩
        have hnd := List.nodup_cons.mp h2
        refine ⟨fun u hu => h1 u (List.mem_cons_of_mem v hu), hnd.2, ?_, ?_⟩
        · intro u hu hmem
          rcases List.mem_cons.mp hmem with rfl | hus
          · exact hnd.1 hu
          · exact h3 u (List.mem_cons_of_mem v hu) hus
        · simp only [List.length_cons] at h4 ⊢
          omega

/-- The row/column walk of `evaluateGrid` accepts exactly the Latin lines
of the specification. -/
theorem checkLine_iff (size : Nat) (cells : List Nat) :
    checkLine size cells = true ↔ lineLatin size cells := by
  rw [checkLine, checkLineGo_iff, lineLatin]
  constructor
  · rintro ⟨h1, h2, _, h4⟩
    refine ⟨h1, h2, ?_⟩
    rw [List.dedup_eq_self.mpr h2]
    simpa using h4
  · rintro ⟨h1, h2, h3⟩
    rw [List.dedup_eq_self.mpr h2] at h3
    exact ⟨h1, h2, fun v _ h => (List.not_mem_nil v) h, by simpa using h3⟩

theorem evaluateFilled_iff (size : Nat) (g : List (List Nat)) :
    evaluateFilled size g = true ↔
      ((∀ r < size, lineLatin size (rowCells g r)) ∧
        (∀ c < size, lineLatin size (colCells size g c))) := by
  rw [evaluateFilled, Bool.and_eq_true, List.all_eq_true, List.all_eq_true]
  simp only [List.mem_range, checkLine_iff]

theorem rows_forall_mem (size : Nat) (g : List (List Nat))
    (hlen : g.length = size) :
    (∀ r < size, lineLatin size (rowCells g r)) ↔
      ∀ row ∈ g, lineLatin size row := by
  constructor
  · intro h row hrow
    obtain ⟨r, hr, rfl⟩ := List.getElem_of_mem hrow
    have := h r (by omega)
    rwa [rowCells, List.getD_eq_getElem g [] hr] at this
  · intro h r hr
    rw [rowCells, List.getD_eq_getElem g [] (by omega)]
    exact h _ (List.getElem_mem _)

theorem colCells_eq_columnOf (size : Nat) (g : List (List Nat)) (c : Nat)
    (hlen : g.length = size) :
    colCells size g c = columnOf g c := by
  subst hlen
  apply List.ext_getElem
  · simp [colCells, columnOf]
  · intro n h1 h2
    simp only [colCells, columnOf, List.getElem_map, List.getElem_range]
    rw [List.getD_eq_getElem g [] (by simpa [columnOf] using h2)]

/-- A permutation of `[1, …, size]` is a Latin line. -/
theorem perm_range'_lineLatin (size : Nat) (l : List Nat)
    (hp : l.Perm (List.range' 1 size)) : lineLatin size l := by
  have hnd : l.Nodup := hp.nodup_iff.mpr (List.nodup_range' 1 size)
  refine ⟨?_, hnd, ?_⟩
  · intro v hv
    have := hp.mem_iff.mp hv
    rw [List.mem_range'] at this
    obtain ⟨i, hi, rfl⟩ := this
    omega
  · rw [List.dedup_eq_self.mpr hnd, hp.length_eq, List.length_range']


theorem mapGet_set_self (m : List (Nat × Nat)) (k v : Nat) :
    mapGet (mapSet m k v) k = some v := by
  induction m with
  | nil => simp [mapSet, mapGet]
  | cons p rest ih =>
    obtain ⟨k', v'⟩ := p
    rw [mapSet]
    split_ifs with h
    · simp [mapGet]
    · rw [mapGet, if_neg h]
      exact ih

theorem mapGet_set_ne (m : List (Nat × Nat)) (k v k' : Nat) (h : k' ≠ k) :
    mapGet (mapSet m k v) k' = mapGet m k' := by
  induction m with
  | nil => simp [mapSet, mapGet, Ne.symm h]
  | cons p rest ih =>
    obtain ⟨a, b⟩ := p
    rw [mapSet]
    split_ifs with ha
    · subst ha
      rw [mapGet, mapGet, if_neg (Ne.symm h), if_neg (Ne.symm h)]
    · rw [mapGet, mapGet]
      by_cases hak : a = k'
      · rw [if_pos hak, if_pos hak]
      · rw [if_neg hak, if_neg hak]
        exact ih

theorem mapGet_delete_self (m : List (Nat × Nat)) (k : Nat) :
    mapGet (mapDelete m k) k = none := by
  induction m with
  | nil => simp [mapDelete, mapGet]
  | cons p rest ih =>
    obtain ⟨a, b⟩ := p
    rw [mapDelete]
    split_ifs with ha
    · exact ih
    · rw [mapGet, if_neg ha]
      exact ih

theorem mapGet_delete_ne (m : List (Nat × Nat)) (k k' : Nat) (h : k' ≠ k) :
    mapGet (mapDelete m k) k' = mapGet m k' := by
  induction m with
  | nil => simp [mapDelete]
  | cons p rest ih =>
    obtain ⟨a, b⟩ := p
    rw [mapDelete]
    split_ifs with ha
    · subst ha
      rw [ih, mapGet, if_neg (Ne.symm h)]
    · rw [mapGet, mapGet]
      by_cases hak : a = k'
      · rw [if_pos hak, if_pos hak]
      · rw [if_neg hak, if_neg hak]
        exact ih

theorem mapGet_eq_none_iff (m : List (Nat × Nat)) (k : Nat) :
    mapGet m k = none ↔ k ∉ m.map Prod.fst := by
  induction m with
  | nil => simp [mapGet]
  | cons p rest ih =>
    obtain ⟨a, b⟩ := p
    rw [mapGet]
    split_ifs with ha
    · simp [ha]
    · simp only [List.map_cons, List.mem_cons, ih]
      constructor
      · rintro hk (rfl | hk')
        · exact ha rfl
        · exact hk hk'
      · intro hk
        exact fun hm => hk (Or.inr hm)

/-- Any result produced by the nearest-slot `reduce` is one of the slots,
paired with its own (squared) distance. -/
theorem findNearest_fold (px py : ℚ) :
    ∀ (slots : List SlotCenter) (acc : Option (SlotCenter × ℚ))
      (p : SlotCenter × ℚ),
      slots.foldl (fun acc slot =>
        let d := distSq px py slot.x slot.y
        match acc with
        | none => some (slot, d)
        | some best => if d < best.2 then some (slot, d) else acc) acc = some p →
      acc = some p ∨ (p.1 ∈ slots ∧ p.2 = distSq px py p.1.x p.1.y) := by
  intro slots
  induction slots with
  | nil =>
    intro acc p h
    exact Or.inl h
  | cons s rest ih =>
    intro acc p h
    rw [List.foldl_cons] at h
    rcases ih _ p h with hacc | ⟨hmem, hd⟩
    · rcases hacc' : acc with _ | best
      · rw [hacc'] at hacc
        simp only at hacc
        cases hacc
        exact Or.inr ⟨List.mem_cons_self s rest, rfl⟩
      · rw [hacc'] at hacc
        simp only at hacc
        split_ifs at hacc with hlt
        · cases hacc
          exact Or.inr ⟨List.mem_cons_self s rest, rfl⟩
        · exact Or.inl (hacc' ▸ hacc)
    · exact Or.inr ⟨List.mem_cons_of_mem s hmem, hd⟩

theorem findNearest_mem (slots : List SlotCenter) (px py : ℚ)
    (s : SlotCenter) (d : ℚ) (h : findNearest slots px py = some (s, d)) :
    s ∈ slots ∧ d = distSq px py s.x s.y := by
  rcases findNearest_fold px py slots none (s, d) h with hc | hm
  · exact absurd hc (by simp)
  · exact hm

/-- Every slot emitted by the `slotInfo` scan sits at a blanked cell of the
puzzle grid and carries the solved grid's value there. -/
theorem slotInfoOf_mem (p q : List (List Nat)) (s : SlotInfo)
    (hs : s ∈ slotInfoOf p q) :
    s.row < p.length ∧ s.col < (p.getD 0 []).length ∧
    (p.getD s.row []).getD s.col 0 = 0 ∧
    s.value = (q.getD s.row []).getD s.col 0 ∧
    s.index = s.row * (p.getD 0 []).length + s.col := by
  rw [slotInfoOf] at hs
  simp only [List.mem_flatMap, List.mem_filterMap, List.mem_range] at hs
  obtain ⟨r, hr, c, hc, hif⟩ := hs
  split_ifs at hif with hcond
  cases hif
  exact ⟨hr, hc, hcond, rfl, rfl⟩

/-- C5 (amended): when validation runs while the binding relation is not
total over the slots (at least one slot holds no token) and the binding map
is well-formed (unique keys, all of them slot indices), `evaluateGrid`
takes its early-return guard: it silently does nothing — no verdict, no
error, no `false` — contrary to the original claim that it fails fast. -/
theorem claim_C5_silent_noop (gridSize : Nat) (puzzleGrid : List (List Nat))
    (slotCenters : List SlotCenter) (slotToBody ballValues : List (Nat × Nat))
    (hkeysNodup : (slotToBody.map Prod.fst).Nodup)
    (hkeysSub : ∀ k ∈ slotToBody.map Prod.fst, k ∈ slotCenters.map SlotCenter.index)
    (hmiss : ∃ slot ∈ slotCenters, mapGet slotToBody slot.index = none) :
    evaluateGridM gridSize puzzleGrid slotCenters slotToBody ballValues = none := by
  obtain ⟨s0, hs0, hg⟩ := hmiss
  have hnotkey : s0.index ∉ slotToBody.map Prod.fst :=
    (mapGet_eq_none_iff slotToBody s0.index).mp hg
  have hidx : s0.index ∈ slotCenters.map SlotCenter.index :=
    List.mem_map_of_mem SlotCenter.index hs0
  have hsub : slotToBody.map Prod.fst ⊆
      (slotCenters.map SlotCenter.index).erase s0.index := by
    intro k hk
    have hne : k ≠ s0.index := by
      intro he
      rw [he] at hk
      exact hnotkey hk
    exact (List.mem_erase_of_ne hne).mpr (hkeysSub k hk)
  have hlt : slotToBody.length < slotCenters.length := by
    have h1 : (slotToBody.map Prod.fst).length ≤
        ((slotCenters.map SlotCenter.index).erase s0.index).length :=
      (List.subperm_of_subset hkeysNodup hsub).length_le
    have h2 : ((slotCenters.map SlotCenter.index).erase s0.index).length
        = (slotCenters.map SlotCenter.index).length - 1 :=
      List.length_erase_of_mem hidx
    have h3 : 0 < (slotCenters.map SlotCenter.index).length :=
      List.length_pos_of_mem hidx
    simp only [List.length_map] at h1 h2 h3 ⊢
    omega
  rw [evaluateGridM, if_pos (by omega)]

/-- C1: for every grid size `N ≥ 1`, every seed and every level index, the
grid returned by `generateSolvedGrid` has `N` rows, and every row and every
column is a permutation of `1..N` — the Latin-square invariant. -/
theorem claim_C1_latin_square (size : Nat) (seed lvl : Int) (hsz : 0 < size) :
    (generateSolvedGrid size seed lvl).length = size ∧
    (∀ row ∈ generateSolvedGrid size seed lvl, row.Perm (List.range' 1 size)) ∧
    (∀ c < size,
      (columnOf (generateSolvedGrid size seed lvl) c).Perm (List.range' 1 size)) :=
  ⟨solvedGrid_length size seed lvl, solvedGrid_rows_perm size seed lvl hsz,
    solvedGrid_cols_perm size seed lvl hsz⟩

theorem claim_C1_witness :
    0 < 3 ∧
    ((generateSolvedGrid 3 5 1).length = 3 ∧
      (∀ row ∈ generateSolvedGrid 3 5 1, row.Perm (List.range' 1 3)) ∧
      (∀ c < 3, (columnOf (generateSolvedGrid 3 5 1) c).Perm (List.range' 1 3))) :=
  ⟨by decide, claim_C1_latin_square 3 5 1 (by decide)⟩

/-- C2: `generateLevelData` is deterministic — two calls with identical
`levelIndex` and `seed` yield identical size, solved grid and puzzle grid.
In this embedding the generator state is threaded explicitly, so
`generateLevelData` is a pure function of its two arguments and equal
inputs give equal outputs; the source likewise creates a fresh
`createSeededRandom` closure per call and reads no other state. -/
theorem claim_C2_determinism (l1 s1 l2 s2 : Int) (hl : l1 = l2) (hs : s1 = s2) :
    (generateLevelData l1 s1).size = (generateLevelData l2 s2).size ∧
    (generateLevelData l1 s1).solvedGrid = (generateLevelData l2 s2).solvedGrid ∧
    (generateLevelData l1 s1).puzzleGrid = (generateLevelData l2 s2).puzzleGrid := by
  subst hl
  subst hs
  exact ⟨rfl, rfl, rfl⟩

theorem claim_C2_witness :
    (generateLevelData 2 9).size = (generateLevelData 2 9).size ∧
    (generateLevelData 2 9).solvedGrid = (generateLevelData 2 9).solvedGrid ∧
    (generateLevelData 2 9).puzzleGrid = (generateLevelData 2 9).puzzleGrid :=
  claim_C2_determinism 2 9 2 9 rfl rfl

/-- C3: the validator core of `evaluateGrid` accepts a fully filled `N×N`
grid iff every row and every column is a Latin line in the claim's sense —
no value outside `[1, N]`, no repeated value, exactly `N` distinct values —
and in particular it accepts the unmodified solved grid; rejection of any
filled grid with a duplicate in some row or column is the `Nodup` conjunct
of the equivalence. -/
theorem claim_C3_validator (size : Nat) (seed lvl : Int) (g : List (List Nat))
    (hsz : 0 < size) (hglen : g.length = size)
    (_hrows : ∀ row ∈ g, row.length = size) :
    (evaluateFilled size g = true ↔
      ((∀ row ∈ g, lineLatin size row) ∧
        (∀ c < size, lineLatin size (columnOf g c)))) ∧
    evaluateFilled size (generateSolvedGrid size seed lvl) = true := by
  constructor
  · rw [evaluateFilled_iff, rows_forall_mem size g hglen]
    constructor
    · rintro ⟨h1, h2⟩
      refine ⟨h1, fun c hc => ?_⟩
      rw [← colCells_eq_columnOf size g c hglen]
      exact h2 c hc
    · rintro ⟨h1, h2⟩
      refine ⟨h1, fun c hc => ?_⟩
      rw [colCells_eq_columnOf size g c hglen]
      exact h2 c hc
  · rw [evaluateFilled_iff]
    have hlen := solvedGrid_length size seed lvl
    constructor
    · rw [rows_forall_mem size _ hlen]
      intro row hrow
      exact perm_range'_lineLatin size row
        (solvedGrid_rows_perm size seed lvl hsz row hrow)
    · intro c hc
      rw [colCells_eq_columnOf size _ c hlen]
      exact perm_range'_lineLatin size _
        (solvedGrid_cols_perm size seed lvl hsz c hc)

theorem claim_C3_witness :
    (evaluateFilled 3 (generateSolvedGrid 3 1 1) = true ↔
      ((∀ row ∈ generateSolvedGrid 3 1 1, lineLatin 3 row) ∧
        (∀ c < 3, lineLatin 3 (columnOf (generateSolvedGrid 3 1 1) c)))) ∧
    evaluateFilled 3 (generateSolvedGrid 3 1 1) = true :=
  claim_C3_validator 3 1 1 (generateSolvedGrid 3 1 1) (by decide) (by decide)
    (by decide)

/-- C4 (counterexample): `getGridSizeForLevel` applies no lower clamp, so
at `levelIndex = 0` it returns `2`, outside the claimed `[3, 14]` and
different from `clamp(MIN_GRID + levelIndex - 1, MIN_GRID, MAX_GRID)`. -/
theorem claim_C4_counterexample :
    getGridSizeForLevel 0 = 2 ∧
    getGridSizeForLevel 0 ≠ max 3 (min 14 (3 + 0 - 1)) ∧
    ¬ 3 ≤ getGridSizeForLevel 0 := by decide

/-- C4 (amended): for every `levelIndex ≥ 1` — the only values the game
passes — `getGridSizeForLevel` agrees with the claimed
`clamp(MIN_GRID + levelIndex - 1, MIN_GRID, MAX_GRID)` and lies in
`[3, 14]`; for `levelIndex ≤ 0` the code returns `levelIndex + 2`
unclamped below. -/
theorem claim_C4_amended (levelIndex : Int) (h : 1 ≤ levelIndex) :
    getGridSizeForLevel levelIndex
      = max MIN_GRID_SIZE (min MAX_GRID_SIZE (MIN_GRID_SIZE + levelIndex - 1)) ∧
    3 ≤ getGridSizeForLevel levelIndex ∧ getGridSizeForLevel levelIndex ≤ 14 := by
  rw [getGridSizeForLevel, MIN_GRID_SIZE, MAX_GRID_SIZE]
  omega

theorem claim_C4_witness :
    getGridSizeForLevel 5
        = max MIN_GRID_SIZE (min MAX_GRID_SIZE (MIN_GRID_SIZE + 5 - 1)) ∧
    3 ≤ getGridSizeForLevel 5 ∧ getGridSizeForLevel 5 ≤ 14 :=
  claim_C4_amended 5 (by decide)

/-- C5 (counterexample): a concrete validation call with an incomplete
binding (one slot, empty binding map): `evaluateGrid` silently returns with
no outcome — it does not fail fast and signals no error to the caller. -/
theorem claim_C5_counterexample :
    evaluateGridM 3 [[1, 2, 3], [2, 3, 1], [3, 1, 2]]
      [⟨1, 1, 4, 1, 0, 0⟩] [] [] = none := by decide

theorem claim_C5_witness :
    evaluateGridM 3 [[1, 2, 3], [2, 3, 1], [3, 1, 2]]
      [⟨0, 0, 0, 1, 0, 0⟩, ⟨1, 1, 4, 1, 10, 10⟩] [(0, 7)] [] = none :=
  claim_C5_silent_noop 3 [[1, 2, 3], [2, 3, 1], [3, 1, 2]]
    [⟨0, 0, 0, 1, 0, 0⟩, ⟨1, 1, 4, 1, 10, 10⟩] [(0, 7)] []
    (by decide) (by decide)
    ⟨⟨1, 1, 4, 1, 10, 10⟩,
      List.mem_cons_of_mem _ (List.mem_cons_self _ _), by decide⟩

/-- C6: for every generated level, the ball creation makes exactly one
token per empty slot (`balls = slotCenters.map(...)`), the token created
for a slot carries that slot's expected value, every slot's expected value
is the solved grid's value at its (blanked) cell, and the multiset of token
values equals the multiset of the slots' expected values. -/
theorem claim_C6_tokens (lvl seed : Int) :
    (tokenValues (slotInfoOf (generateLevelData lvl seed).puzzleGrid
        (generateLevelData lvl seed).solvedGrid)).length
      = (slotInfoOf (generateLevelData lvl seed).puzzleGrid
          (generateLevelData lvl seed).solvedGrid).length ∧
    (tokenValues (slotInfoOf (generateLevelData lvl seed).puzzleGrid
        (generateLevelData lvl seed).solvedGrid) : Multiset Nat)
      = ((slotInfoOf (generateLevelData lvl seed).puzzleGrid
          (generateLevelData lvl seed).solvedGrid).map SlotInfo.value
            : Multiset Nat) ∧
    ∀ s ∈ slotInfoOf (generateLevelData lvl seed).puzzleGrid
        (generateLevelData lvl seed).solvedGrid,
      s.value = ((generateLevelData lvl seed).solvedGrid.getD s.row []).getD
          s.col 0 ∧
      ((generateLevelData lvl seed).puzzleGrid.getD s.row []).getD s.col 0
        = 0 := by
  refine ⟨by rw [tokenValues, List.length_map], rfl, ?_⟩
  intro s hs
  have h := slotInfoOf_mem _ _ s hs
  exact ⟨h.2.2.2.1, h.2.2.1⟩

theorem claim_C6_witness :
    (⟨1, 1, 4, 1⟩ : SlotInfo).value
        = ((generateLevelData 1 1).solvedGrid.getD 1 []).getD 1 0 ∧
    ((generateLevelData 1 1).puzzleGrid.getD 1 []).getD 1 0 = 0 :=
  (claim_C6_tokens 1 1).2.2 ⟨1, 1, 4, 1⟩ (by decide)

/-- C7: dropping a token within the snap threshold of a slot that already
holds a different token evicts the occupant — both of its directional
binding entries are removed — and binds the dropped token, so the slot then
holds exactly the newly dropped token. -/
theorem claim_C7_displacement (st : BindMaps) (slots : List SlotCenter)
    (bodyId e : Nat) (px py threshSq : ℚ) (s : SlotCenter) (d : ℚ)
    (hfind : findNearest slots px py = some (s, d))
    (hsnap : ¬ threshSq < d)
    (hocc : mapGet st.slotToBody s.index = some e)
    (he0 : e ≠ 0) (hne : e ≠ bodyId) :
    mapGet (dropBody st slots bodyId px py threshSq).slotToBody s.index
      = some bodyId ∧
    mapGet (dropBody st slots bodyId px py threshSq).bodyToSlot bodyId
      = some s.index ∧
    mapGet (dropBody st slots bodyId px py threshSq).bodyToSlot e = none := by
  simp only [dropBody, hfind, if_neg hsnap, hocc, clearSlot, if_neg he0,
    Option.isSome_some, if_true]
  refine ⟨mapGet_set_self _ _ _, mapGet_set_self _ _ _, ?_⟩
  rw [mapGet_set_ne _ _ _ _ hne, mapGet_delete_self]

theorem claim_C7_witness :
    mapGet (dropBody ⟨[(0, 2)], [(2, 0)], [0]⟩ [⟨0, 0, 0, 1, 0, 0⟩]
        5 0 0 1).slotToBody 0 = some 5 ∧
    mapGet (dropBody ⟨[(0, 2)], [(2, 0)], [0]⟩ [⟨0, 0, 0, 1, 0, 0⟩]
        5 0 0 1).bodyToSlot 5 = some 0 ∧
    mapGet (dropBody ⟨[(0, 2)], [(2, 0)], [0]⟩ [⟨0, 0, 0, 1, 0, 0⟩]
        5 0 0 1).bodyToSlot 2 = none :=
  claim_C7_displacement ⟨[(0, 2)], [(2, 0)], [0]⟩ [⟨0, 0, 0, 1, 0, 0⟩]
    5 2 0 0 1 ⟨0, 0, 0, 1, 0, 0⟩ 0
    (by norm_num [findNearest, distSq]) (by norm_num) (by decide)
    (by decide) (by decide)

/-- C8: a token dropped farther than the snap threshold from every slot
center is rejected: `dropBody` leaves the binding state completely
unchanged, and a token that was unbound at drop time stays unbound (the
source then merely returns the ball's body to a pool position). -/
theorem claim_C8_reject (st : BindMaps) (slots : List SlotCenter)
    (bodyId : Nat) (px py threshSq : ℚ)
    (hfar : ∀ slot ∈ slots, threshSq < distSq px py slot.x slot.y)
    (hunbound : mapGet st.bodyToSlot bodyId = none) :
    dropBody st slots bodyId px py threshSq = st ∧
    mapGet (dropBody st slots bodyId px py threshSq).bodyToSlot bodyId
      = none := by
  have hst : dropBody st slots bodyId px py threshSq = st := by
    rw [dropBody]
    split
    · rfl
    · next nearest heq =>
      obtain ⟨s, d⟩ := nearest
      have hm := findNearest_mem slots px py s d heq
      have hlt : threshSq < d := by
        rw [hm.2]
        exact hfar s hm.1
      exact if_pos hlt
  refine ⟨hst, ?_⟩
  rw [hst]
  exact hunbound

theorem claim_C8_witness :
    dropBody ⟨[], [], []⟩ [⟨0, 0, 0, 1, 10, 10⟩] 3 0 0 1 = ⟨[], [], []⟩ ∧
    mapGet (dropBody ⟨[], [], []⟩ [⟨0, 0, 0, 1, 10, 10⟩] 3 0 0 1).bodyToSlot 3
      = none :=
  claim_C8_reject ⟨[], [], []⟩ [⟨0, 0, 0, 1, 10, 10⟩] 3 0 0 1
    (by intro slot hslot
        rcases List.mem_singleton.mp hslot with rfl
        norm_num [distSq])
    (by decide)

/-- C9: for `levelIndex = 1` (grid size 3) and every seed, the computed
`missingCount = floor(9 * ratio)` with the ratio drawn from the level-1
range `[0.22, 0.30)` lies between 1 and 2 inclusive. -/
theorem claim_C9_missing_count (seed : Int) :
    missingCountOf 1 seed
      = Nat.floor ((9:ℚ) * (22/100
          + randQ (rngStep (rngInit (seed + 1 * 97))) * (3/10 - 22/100))) ∧
    1 ≤ missingCountOf 1 seed ∧ missingCountOf 1 seed ≤ 2 := by
  refine ⟨?_, ?_⟩
  · rw [missingCountOf_floor 1 seed]
    have h3 : (getGridSizeForLevel 1).toNat = 3 := by decide
    have hr : getMissingRatio 1 = (22/100, 3/10) := by
      rw [getMissingRatio, if_pos (by norm_num)]
    rw [h3, hr]
    norm_num
  · have hs1 : rngStep (rngInit (seed + 1 * 97)) < 2147483647 := rngStep_lt _
    have hsize : (getGridSizeForLevel 1).toNat = 3 := by decide
    have hnum : getMissingRatioNum 1 = (22, 30) := by decide
    simp only [missingCountOf, hsize, hnum]
    omega

/-- C10 (code bug): the seed `-2147483646` defeats the normalisation
`if (value <= 0) value += 2147483646`, landing exactly on the zero fixed
point: the internal state initialises to `0` (outside the claimed
`[1, 2147483646]`), stays `0` under every advance, and every `nextFloat`
call returns exactly `0` (not in `(0, 1)`), so the stream collapses. -/
theorem claim_C10_zero_collapse :
    rngInit (-2147483646) = 0 ∧ rngStep 0 = 0 ∧ randQ (rngStep 0) = 0 := by
  refine ⟨by decide, by decide, ?_⟩
  rw [rngStep, randQ]
  norm_num

end Sudo
